import Mathlib

/-!
Shallow embedding of the signer state machine of the wsts repository
(src/state_machine/signer/mod.rs) together with the external cryptographic
signer capability (src/traits.rs, trait Signer).

Modelling conventions:
* Machine integers (u32, u64) are modelled as `Nat`; none of the verified
  code performs wrapping arithmetic on them.
* `BTreeMap<u32, V>` and `HashMap<u32, V>` are modelled by `Fmap V`, an
  association list kept sorted by key on insertion.  For the `BTreeMap`
  (`commitments`) this makes `Fmap.values` return values in ascending key
  order, matching `BTreeMap::into_values`; for the `HashMap`s only insert,
  lookup, key membership and size are ever observed, for which the sorted
  list is observationally equivalent.
* The external cryptographic signer (trait `Signer`, implemented by v1/v2
  outside this crate) is an abstract capability: its internal state is an
  opaque `Nat` and its operations are fields of a `SignerOps` record,
  with `&mut self` methods modelled by explicit state passing.
* Randomness (`OsRng`) is modelled by threading an opaque `Nat` seed through
  the operations that take an RNG.
* The crypto utilities (`make_shared_secret`, `encrypt`, `decrypt`,
  `Scalar::try_from`, message envelope signing), which live outside the two
  verified source files, are abstract fields of a `CryptoEnv` record;
  `decrypt` and scalar parsing are fallible and return `Option`.
* `Error::BadStateChange` carries a `String` in the source, formatted from
  the previous and requested states; since that formatting is injective we
  keep the two states themselves.
* `DkgStatus::Failure` carries a debug-formatted `String`; we keep the
  structured data that is formatted (either the invalid-share list or the
  error map returned by `compute_secrets`).
-/

namespace Wsts

/-- Signer states (enum `State` in src/state_machine/signer/mod.rs). -/
inductive State
  | Idle
  | DkgPublicDistribute
  | DkgPublicGather
  | DkgPrivateDistribute
  | DkgPrivateGather
  | SignGather
  | Signed
deriving DecidableEq, Repr

/-- The error type for a signer (enum `Error`).  `BadStateChange` keeps the
previous and requested state in place of the formatted string. -/
inductive Error
  | InvalidPartyID
  | InvalidDkgPublicShares
  | InvalidDkgPrivateShares (ids : List Nat)
  | InvalidNonceResponse
  | InvalidSignatureShare
  | BadStateChange (prev next : State)
deriving DecidableEq, Repr

/-- Finite map from `Nat` keys, as an association list sorted by key.
Models both `BTreeMap<u32, V>` and (for the operations observed here)
`HashMap<u32, V>`. -/
abbrev Fmap (α : Type) : Type := List (Nat × α)

/-- Insert, replacing an existing binding and keeping keys sorted
(the visible behaviour of `BTreeMap::insert` / `HashMap::insert`). -/
def Fmap.insert {α : Type} : Fmap α → Nat → α → Fmap α
  | [], k, v => [(k, v)]
  | (k', v') :: rest, k, v =>
    if k < k' then (k, v) :: (k', v') :: rest
    else if k = k' then (k, v) :: rest
    else (k', v') :: Fmap.insert rest k v

/-- Lookup by key. -/
def Fmap.lookup {α : Type} : Fmap α → Nat → Option α
  | [], _ => none
  | (k', v) :: rest, k => if k = k' then some v else Fmap.lookup rest k

/-- The keys of the map. -/
def Fmap.keys {α : Type} (m : Fmap α) : List Nat := m.map Prod.fst

/-- The values of the map, in ascending key order
(`BTreeMap::into_values().collect()`). -/
def Fmap.values {α : Type} (m : Fmap α) : List α := m.map Prod.snd

/-- A polynomial commitment; `id` is the committing party's id
(`poly.id.id.get_u32()` in the source), `payload` the opaque remainder. -/
structure PolyCommitment where
  id : Nat
  payload : Nat
deriving DecidableEq, Repr

/-- A public nonce (opaque pair of group elements). -/
structure PublicNonce where
  d : Nat
  e : Nat
deriving DecidableEq, Repr

/-- A signature share (opaque). -/
structure SignatureShare where
  id : Nat
  zi : Nat
deriving DecidableEq, Repr

/-- What a `DkgStatus::Failure` debug-string is formatted from: either the
`invalid_private_shares` list or the error map from `compute_secrets`. -/
inductive DkgFail
  | badShares (ids : List Nat)
  | computeSecrets (errs : List (Nat × Nat))
deriving DecidableEq, Repr

/-- Result of a DKG round (enum `DkgStatus` in net.rs). -/
inductive DkgStatus
  | Success
  | Failure (diag : DkgFail)
deriving DecidableEq, Repr

/-- `DkgBegin` message payload (also used by `DkgPrivateBegin`). -/
structure DkgBegin where
  dkg_id : Nat
deriving DecidableEq, Repr

/-- `DkgPublicShares` message payload. -/
structure DkgPublicShares where
  dkg_id : Nat
  signer_id : Nat
  comms : List (Nat × PolyCommitment)
deriving DecidableEq, Repr

/-- `DkgPrivateShares` message payload: a list of
(src key id, map dst key id to encrypted bytes). -/
structure DkgPrivateShares where
  dkg_id : Nat
  signer_id : Nat
  shares : List (Nat × List (Nat × List Nat))
deriving DecidableEq, Repr

/-- `DkgEnd` message payload. -/
structure DkgEnd where
  dkg_id : Nat
  signer_id : Nat
  status : DkgStatus
deriving DecidableEq, Repr

/-- `NonceRequest` message payload. -/
structure NonceRequest where
  dkg_id : Nat
  sign_id : Nat
  sign_iter_id : Nat
deriving DecidableEq, Repr

/-- `NonceResponse` message payload. -/
structure NonceResponse where
  dkg_id : Nat
  sign_id : Nat
  sign_iter_id : Nat
  signer_id : Nat
  key_ids : List Nat
  nonces : List PublicNonce
deriving DecidableEq, Repr

/-- `SignatureShareRequest` message payload. -/
structure SignatureShareRequest where
  dkg_id : Nat
  sign_id : Nat
  sign_iter_id : Nat
  nonce_responses : List NonceResponse
  message : List Nat
  is_taproot : Bool
  merkle_root : Option Nat
deriving DecidableEq, Repr

/-- `SignatureShareResponse` message payload. -/
structure SignatureShareResponse where
  dkg_id : Nat
  sign_id : Nat
  sign_iter_id : Nat
  signer_id : Nat
  signature_shares : List SignatureShare
deriving DecidableEq, Repr

/-- Protocol messages (enum `Message` in net.rs); the variants the signer
state machine dispatches on. -/
inductive Message
  | DkgBegin (m : DkgBegin)
  | DkgPrivateBegin (m : DkgBegin)
  | DkgEnd (m : DkgEnd)
  | DkgPublicShares (m : DkgPublicShares)
  | DkgPrivateShares (m : DkgPrivateShares)
  | NonceRequest (m : NonceRequest)
  | NonceResponse (m : NonceResponse)
  | SignatureShareRequest (m : SignatureShareRequest)
  | SignatureShareResponse (m : SignatureShareResponse)
deriving DecidableEq, Repr

/-- A network packet: an envelope signature plus the message. -/
structure Packet where
  sig : List Nat
  msg : Message
deriving DecidableEq, Repr

/-- The public keys of all signers and key ids (`PublicKeys`), as total
lookup functions (the source indexes panic on a missing key; the handlers
verified here are only ever run on keys present in the map). -/
structure PublicKeys where
  signers : Nat → Nat
  key_ids : Nat → Nat

/-- The external cryptographic signer capability (trait `Signer` in
src/traits.rs).  The internal state of the signer is an opaque `Nat`;
methods taking `&mut self` or `&mut rng` pass the updated value
explicitly. -/
structure SignerOps where
  new : Nat → List Nat → Nat → Nat → Nat → Nat → Nat × Nat
  get_id : Nat → Nat
  get_key_ids : Nat → List Nat
  get_num_parties : Nat → Nat
  get_poly_commitments : Nat → Nat → List PolyCommitment × Nat
  reset_polys : Nat → Nat → Nat × Nat
  get_shares : Nat → List (Nat × List (Nat × Nat))
  compute_secrets :
    Nat → Fmap (Fmap Nat) → List PolyCommitment → Except (List (Nat × Nat)) Unit × Nat
  gen_nonces : Nat → Nat → List PublicNonce × Nat × Nat
  sign : Nat → List Nat → List Nat → List Nat → List PublicNonce → List SignatureShare
  sign_taproot :
    Nat → List Nat → List Nat → List Nat → List PublicNonce → Option Nat →
    List SignatureShare

/-- The cryptographic utilities used by the signer that live outside the two
verified source files (util.rs, net.rs): shared-secret derivation,
authenticated encryption and decryption, scalar serialization, and message
envelope signing.  All are abstract. -/
structure CryptoEnv where
  make_shared_secret : Nat → Nat → Nat
  encrypt : Nat → List Nat → Nat → List Nat × Nat
  decrypt : Nat → List Nat → Option (List Nat)
  scalar_from_bytes : List Nat → Option Nat
  scalar_to_bytes : Nat → List Nat
  sign_message : Nat → Message → List Nat

/-- The signing-round state machine (struct `SigningRound`). -/
structure SigningRound where
  dkg_id : Nat
  sign_id : Nat
  sign_iter_id : Nat
  threshold : Nat
  total_signers : Nat
  total_keys : Nat
  signer : Nat
  signer_id : Nat
  state : State
  commitments : Fmap PolyCommitment
  decrypted_shares : Fmap (Fmap Nat)
  invalid_private_shares : List Nat
  public_nonces : List PublicNonce
  network_private_key : Nat
  public_keys : PublicKeys

/-- `SigningRound::new` (the `assert!(threshold <= total_keys)` is imposed
as a hypothesis where reachability from a fresh round is used). -/
def SigningRound.new (ops : SignerOps) (threshold total_signers total_keys signer_id : Nat)
    (key_ids : List Nat) (network_private_key : Nat) (public_keys : PublicKeys)
    (rng : Nat) : SigningRound :=
  let (sst, _rng) := ops.new signer_id key_ids total_signers total_keys threshold rng
  { dkg_id := 0
    sign_id := 1
    sign_iter_id := 1
    threshold
    total_signers
    total_keys
    signer := sst
    signer_id
    state := State.Idle
    commitments := []
    decrypted_shares := []
    invalid_private_shares := []
    public_nonces := []
    network_private_key
    public_keys }

/-- `StateMachine::can_move_to` for `SigningRound`: which transitions are
accepted; all others produce `BadStateChange(prev, next)`. -/
def can_move_to (r : SigningRound) (state : State) : Except Error Unit :=
  let prev_state := r.state
  let accepted : Bool :=
    match state with
    | State.Idle => true
    | State.DkgPublicDistribute =>
        prev_state == State.Idle || prev_state == State.DkgPublicGather
          || prev_state == State.DkgPrivateDistribute
    | State.DkgPublicGather => prev_state == State.DkgPublicDistribute
    | State.DkgPrivateDistribute => prev_state == State.DkgPublicGather
    | State.DkgPrivateGather => prev_state == State.DkgPrivateDistribute
    | State.SignGather => prev_state == State.Idle
    | State.Signed => prev_state == State.SignGather
  if accepted then Except.ok () else Except.error (Error.BadStateChange prev_state state)

/-- `StateMachine::move_to`: on success the state field becomes the target;
on failure the round is unchanged (the caller keeps the old value). -/
def move_to (r : SigningRound) (state : State) : Except Error SigningRound :=
  match can_move_to r state with
  | Except.ok () => Except.ok { r with state := state }
  | Except.error e => Except.error e

/-- `SigningRound::reset`: install the new dkg id, clear the four per-round
collections and regenerate the signer's polynomials. -/
def reset (ops : SignerOps) (r : SigningRound) (dkg_id : Nat) (rng : Nat) :
    SigningRound × Nat :=
  let (sst, rng') := ops.reset_polys r.signer rng
  ({ r with
      dkg_id := dkg_id
      commitments := []
      decrypted_shares := []
      invalid_private_shares := []
      public_nonces := []
      signer := sst }, rng')

/-- `SigningRound::public_shares_done`. -/
def public_shares_done (ops : SignerOps) (r : SigningRound) : Bool :=
  r.state == State.DkgPublicGather
    && r.commitments.length == ops.get_num_parties r.signer

/-- `SigningRound::can_dkg_end`. -/
def can_dkg_end (ops : SignerOps) (r : SigningRound) : Bool :=
  r.state == State.DkgPrivateGather
    && r.commitments.length == ops.get_num_parties r.signer
    && r.decrypted_shares.length == ops.get_num_parties r.signer

/-- `SigningRound::dkg_ended`: build the DkgEnd message, running
`compute_secrets` only when `invalid_private_shares` is empty. -/
def dkg_ended (ops : SignerOps) (r : SigningRound) :
    Except Error Message × SigningRound :=
  let polys := Fmap.values r.commitments
  if r.invalid_private_shares.isEmpty then
    match ops.compute_secrets r.signer r.decrypted_shares polys with
    | (Except.ok (), sst) =>
        (Except.ok (Message.DkgEnd
          { dkg_id := r.dkg_id, signer_id := r.signer_id, status := DkgStatus.Success }),
         { r with signer := sst })
    | (Except.error errs, sst) =>
        (Except.ok (Message.DkgEnd
          { dkg_id := r.dkg_id, signer_id := r.signer_id,
            status := DkgStatus.Failure (DkgFail.computeSecrets errs) }),
         { r with signer := sst })
  else
    (Except.ok (Message.DkgEnd
      { dkg_id := r.dkg_id, signer_id := r.signer_id,
        status := DkgStatus.Failure (DkgFail.badShares r.invalid_private_shares) }), r)

/-- `SigningRound::nonce_request`: generate fresh nonces and answer with a
`NonceResponse` echoing the request's identifiers. -/
def nonce_request (ops : SignerOps) (r : SigningRound) (rng : Nat)
    (m : NonceRequest) : Except Error (List Message) × SigningRound × Nat :=
  let signer_id := r.signer_id
  let key_ids := ops.get_key_ids r.signer
  let (nonces, sst, rng') := ops.gen_nonces r.signer rng
  let response : NonceResponse :=
    { dkg_id := m.dkg_id
      sign_id := m.sign_id
      sign_iter_id := m.sign_iter_id
      signer_id
      key_ids
      nonces }
  (Except.ok [Message.NonceResponse response], { r with signer := sst }, rng')

/-- `SigningRound::sign_share_request`: for each occurrence of this signer's
id among the quorum's signer ids, push a `SignatureShareResponse` whose
shares are computed over the quorum's flattened key ids and nonces. -/
def sign_share_request (ops : SignerOps) (r : SigningRound)
    (m : SignatureShareRequest) : Except Error (List Message) × SigningRound :=
  let signer_ids := m.nonce_responses.map (fun nr => nr.signer_id)
  let msgs := signer_ids.foldl
    (fun msgs signer_id =>
      if signer_id == r.signer_id then
        let key_ids := (m.nonce_responses.map (fun nr => nr.key_ids)).flatten
        let nonces := (m.nonce_responses.map (fun nr => nr.nonces)).flatten
        let signature_shares :=
          if m.is_taproot then
            ops.sign_taproot r.signer m.message signer_ids key_ids nonces m.merkle_root
          else
            ops.sign r.signer m.message signer_ids key_ids nonces
        msgs ++ [Message.SignatureShareResponse
          { dkg_id := m.dkg_id
            sign_id := m.sign_id
            sign_iter_id := m.sign_iter_id
            signer_id := signer_id
            signature_shares }]
      else msgs)
    []
  (Except.ok msgs, r)

/-- `SigningRound::dkg_public_begin`: emit this signer's `DkgPublicShares`
and move to `DkgPublicGather`. -/
def dkg_public_begin (ops : SignerOps) (r : SigningRound) (rng : Nat) :
    Except Error (List Message) × SigningRound × Nat :=
  let (comms, rng') := ops.get_poly_commitments r.signer rng
  let public_share : DkgPublicShares :=
    { dkg_id := r.dkg_id
      signer_id := r.signer_id
      comms := comms.map (fun poly => (poly.id, poly)) }
  match move_to r State.DkgPublicGather with
  | Except.ok r' => (Except.ok [Message.DkgPublicShares public_share], r', rng')
  | Except.error e => (Except.error e, r, rng')

/-- `SigningRound::dkg_begin`: reset the round, move to
`DkgPublicDistribute` and distribute the public shares. -/
def dkg_begin (ops : SignerOps) (r : SigningRound) (rng : Nat) (m : DkgBegin) :
    Except Error (List Message) × SigningRound × Nat :=
  let (r', rng') := reset ops r m.dkg_id rng
  match move_to r' State.DkgPublicDistribute with
  | Except.error e => (Except.error e, r', rng')
  | Except.ok r'' => dkg_public_begin ops r'' rng'

/-- `SigningRound::dkg_private_begin`: encrypt and emit this signer's
private shares for every destination key id, then move to
`DkgPrivateGather`. -/
def dkg_private_begin (env : CryptoEnv) (ops : SignerOps) (r : SigningRound)
    (rng : Nat) : Except Error (List Message) × SigningRound × Nat :=
  let (shareList, rng') := (ops.get_shares r.signer).foldl
    (fun (acc : List (Nat × List (Nat × List Nat)) × Nat) kv =>
      let (encrypted_shares, rngInner) := kv.2.foldl
        (fun (accInner : Fmap (List Nat) × Nat) dstShare =>
          let dst_public_key := r.public_keys.key_ids (dstShare.1 + 1)
          let shared_secret :=
            env.make_shared_secret r.network_private_key dst_public_key
          let (encrypted_share, rngNext) :=
            env.encrypt shared_secret (env.scalar_to_bytes dstShare.2) accInner.2
          (Fmap.insert accInner.1 dstShare.1 encrypted_share, rngNext))
        ([], acc.2)
      (acc.1 ++ [(kv.1, encrypted_shares)], rngInner))
    ([], rng)
  let private_shares : DkgPrivateShares :=
    { dkg_id := r.dkg_id, signer_id := r.signer_id, shares := shareList }
  match move_to r State.DkgPrivateGather with
  | Except.ok r' => (Except.ok [Message.DkgPrivateShares private_shares], r', rng')
  | Except.error e => (Except.error e, r, rng')

/-- `SigningRound::dkg_public_share`: store every received commitment,
keyed by party id (last writer wins). -/
def dkg_public_share (r : SigningRound) (m : DkgPublicShares) :
    Except Error (List Message) × SigningRound :=
  let commitments := m.comms.foldl
    (fun c pc => Fmap.insert c pc.1 pc.2) r.commitments
  (Except.ok [], { r with commitments := commitments })

/-- The combined decrypt-then-parse step applied to one ciphertext. -/
def decparse (env : CryptoEnv) (shared_secret : Nat) (bytes : List Nat) : Option Nat :=
  match env.decrypt shared_secret bytes with
  | some plain => env.scalar_from_bytes plain
  | none => none

/-- One step of the inner loop of `SigningRound::dkg_private_shares`:
process a single `(dst key id, ciphertext)` pair, inserting the decrypted
scalar or recording the sender as invalid. -/
def decrypt_one (env : CryptoEnv) (key_ids : List Nat) (shared_secret : Nat)
    (src_id : Nat) (acc : Fmap Nat × List Nat) (db : Nat × List Nat) :
    Fmap Nat × List Nat :=
  if key_ids.contains db.1 then
    match env.decrypt shared_secret db.2 with
    | some plain =>
      match env.scalar_from_bytes plain with
      | some s => (Fmap.insert acc.1 db.1 s, acc.2)
      | none => (acc.1, acc.2 ++ [src_id])
    | none => (acc.1, acc.2 ++ [src_id])
  else acc

/-- One iteration of the outer loop of `SigningRound::dkg_private_shares`:
decrypt one source party's shares (starting from an empty inner map and the
invalid list accumulated so far) and insert the result under the source
party id. -/
def private_shares_step (env : CryptoEnv) (key_ids : List Nat) (shared_secret : Nat)
    (r : SigningRound) (sg : Nat × List (Nat × List Nat)) : SigningRound :=
  let (dec, inv) := sg.2.foldl
    (decrypt_one env key_ids shared_secret sg.1)
    (([] : Fmap Nat), r.invalid_private_shares)
  { r with
      decrypted_shares := Fmap.insert r.decrypted_shares sg.1 dec
      invalid_private_shares := inv }

/-- `SigningRound::dkg_private_shares`: decrypt the shares addressed to
this signer's key ids, record failures in `invalid_private_shares`, and
always insert an entry for each source party id. -/
def dkg_private_shares (env : CryptoEnv) (ops : SignerOps) (r : SigningRound)
    (m : DkgPrivateShares) : Except Error (List Message) × SigningRound :=
  let key_ids := ops.get_key_ids r.signer
  let public_key := r.public_keys.signers m.signer_id
  let shared_secret := env.make_shared_secret r.network_private_key public_key
  (Except.ok [], m.shares.foldl (private_shares_step env key_ids shared_secret) r)

/-- The handler dispatch at the top of `SigningRound::process`: route the
message to its handler (unused variants are ignored). -/
def dispatch (env : CryptoEnv) (ops : SignerOps) (r : SigningRound) (rng : Nat)
    (message : Message) : Except Error (List Message) × SigningRound × Nat :=
  match message with
  | Message.DkgBegin m => dkg_begin ops r rng m
  | Message.DkgPrivateBegin _ => dkg_private_begin env ops r rng
  | Message.DkgPublicShares m =>
      let (o, r') := dkg_public_share r m
      (o, r', rng)
  | Message.DkgPrivateShares m =>
      let (o, r') := dkg_private_shares env ops r m
      (o, r', rng)
  | Message.SignatureShareRequest m =>
      let (o, r') := sign_share_request ops r m
      (o, r', rng)
  | Message.NonceRequest m => nonce_request ops r rng m
  | _ => (Except.ok [], r, rng)

/-- `SigningRound::process`: run the handler, then the completion checks:
advance to `DkgPrivateDistribute` when `public_shares_done`, or emit the
`DkgEnd` and return to `Idle` when `can_dkg_end`. -/
def process (env : CryptoEnv) (ops : SignerOps) (r : SigningRound) (rng : Nat)
    (message : Message) : Except Error (List Message) × SigningRound × Nat :=
  match dispatch env ops r rng message with
  | (Except.ok out, r', rng') =>
    if public_shares_done ops r' then
      match move_to r' State.DkgPrivateDistribute with
      | Except.ok r'' => (Except.ok out, r'', rng')
      | Except.error e => (Except.error e, r', rng')
    else if can_dkg_end ops r' then
      match dkg_ended ops r' with
      | (Except.ok dkg_end_msg, r'') =>
        match move_to r'' State.Idle with
        | Except.ok r3 => (Except.ok (out ++ [dkg_end_msg]), r3, rng')
        | Except.error e => (Except.error e, r'', rng')
      | (Except.error e, r'') => (Except.error e, r'', rng')
    else (Except.ok out, r', rng')
  | (Except.error e, r', rng') => (Except.error e, r', rng')

/-- The loop body of `SigningRound::process_inbound_messages` with its
accumulated responses: on the first failing message the error is returned
and the accumulated responses are discarded, while the round keeps all
mutations performed so far. -/
def process_inbound_aux (env : CryptoEnv) (ops : SignerOps) :
    SigningRound → Nat → List Packet → List Packet →
    Except Error (List Packet) × SigningRound × Nat
  | r, rng, [], responses => (Except.ok responses, r, rng)
  | r, rng, message :: rest, responses =>
    match process env ops r rng message.msg with
    | (Except.error e, r', rng') => (Except.error e, r', rng')
    | (Except.ok outbounds, r', rng') =>
      let outPackets := outbounds.map
        (fun out => { sig := env.sign_message r'.network_private_key out, msg := out })
      process_inbound_aux env ops r' rng' rest (responses ++ outPackets)

/-- `SigningRound::process_inbound_messages`. -/
def process_inbound_messages (env : CryptoEnv) (ops : SignerOps) (r : SigningRound)
    (rng : Nat) (messages : List Packet) :
    Except Error (List Packet) × SigningRound × Nat :=
  process_inbound_aux env ops r rng messages []

/-- Whether a message is a `DkgEnd`. -/
def isDkgEnd : Message → Bool
  | Message.DkgEnd _ => true
  | _ => false

/-- The rounds reachable from a freshly constructed `SigningRound` by
processing messages (the `assert!(threshold <= total_keys)` of
`SigningRound::new` is the hypothesis of the base case). -/
inductive Reachable (env : CryptoEnv) (ops : SignerOps) : SigningRound → Prop
  | init (threshold total_signers total_keys signer_id : Nat) (key_ids : List Nat)
      (network_private_key : Nat) (public_keys : PublicKeys) (rng : Nat)
      (h : threshold ≤ total_keys) :
      Reachable env ops (SigningRound.new ops threshold total_signers total_keys
        signer_id key_ids network_private_key public_keys rng)
  | step (r : SigningRound) (rng : Nat) (msg : Message) :
      Reachable env ops r →
      Reachable env ops (process env ops r rng msg).2.1

/-- The transition graph claimed in the specification (section 4.4): the
seven listed edges plus restart of the public-distribute phase from
`Idle`, `DkgPublicGather` and `DkgPrivateDistribute`.  This definition
follows the specification's words, to be compared with `can_move_to`,
which is translated from the source. -/
def specEdge : State → State → Bool
  | State.Idle, State.DkgPublicDistribute => true
  | State.DkgPublicDistribute, State.DkgPublicGather => true
  | State.DkgPublicGather, State.DkgPrivateDistribute => true
  | State.DkgPrivateDistribute, State.DkgPrivateGather => true
  | State.DkgPrivateGather, State.Idle => true
  | State.Idle, State.SignGather => true
  | State.SignGather, State.Signed => true
  | State.DkgPublicGather, State.DkgPublicDistribute => true
  | State.DkgPrivateDistribute, State.DkgPublicDistribute => true
  | _, _ => false

/-- Whether a message is a `SignatureShareResponse`. -/
def isSigShareResponse : Message → Bool
  | Message.SignatureShareResponse _ => true
  | _ => false

/-- The signature shares computed by `sign_share_request` for this signer:
`sign_taproot` with the optional merkle root when `is_taproot` is set,
otherwise `sign`, over the quorum's signer ids and flattened key ids and
nonces. -/
def shares_of (ops : SignerOps) (r : SigningRound) (m : SignatureShareRequest) :
    List SignatureShare :=
  if m.is_taproot then
    ops.sign_taproot r.signer m.message (m.nonce_responses.map (fun nr => nr.signer_id))
      ((m.nonce_responses.map (fun nr => nr.key_ids)).flatten)
      ((m.nonce_responses.map (fun nr => nr.nonces)).flatten) m.merkle_root
  else
    ops.sign r.signer m.message (m.nonce_responses.map (fun nr => nr.signer_id))
      ((m.nonce_responses.map (fun nr => nr.key_ids)).flatten)
      ((m.nonce_responses.map (fun nr => nr.nonces)).flatten)

/-- The one response `sign_share_request` pushes for each occurrence of
this signer's id in the quorum. -/
def canonical_share_response (ops : SignerOps) (r : SigningRound)
    (m : SignatureShareRequest) : Message :=
  Message.SignatureShareResponse
    { dkg_id := m.dkg_id
      sign_id := m.sign_id
      sign_iter_id := m.sign_iter_id
      signer_id := r.signer_id
      signature_shares := shares_of ops r m }

/-- Invariant I3: every destination key id recorded in `decrypted_shares`
is one of this signer's own key ids. -/
def shares_inv (ops : SignerOps) (r : SigningRound) : Prop :=
  ∀ src d, Fmap.lookup r.decrypted_shares src = some d →
    ∀ dst, dst ∈ Fmap.keys d → dst ∈ ops.get_key_ids r.signer

/-- A concrete cryptographic signer capability used to evaluate the theorems
on closed inputs: one party, one key id, identity-like state passing. -/
def opsA : SignerOps :=
  { new := fun _ _ _ _ _ rng => (0, rng)
    get_id := fun _ => 1
    get_key_ids := fun _ => [1]
    get_num_parties := fun _ => 1
    get_poly_commitments := fun _ rng => ([{ id := 1, payload := 0 }], rng)
    reset_polys := fun s rng => (s, rng)
    get_shares := fun _ => []
    compute_secrets := fun s _ _ => (Except.ok (), s)
    gen_nonces := fun s rng => ([{ d := 1, e := 2 }], s, rng + 1)
    sign := fun _ _ _ _ _ => []
    sign_taproot := fun _ _ _ _ _ _ => [] }

/-- A concrete crypto environment used to evaluate the theorems on closed
inputs: encryption is the identity, a scalar serializes to a singleton
list, so decrypt-then-parse succeeds exactly on nonempty ciphertexts. -/
def envA : CryptoEnv :=
  { make_shared_secret := fun _ _ => 0
    encrypt := fun _ pt rng => (pt, rng)
    decrypt := fun _ ct => some ct
    scalar_from_bytes := fun b => b.head?
    scalar_to_bytes := fun s => [s]
    sign_message := fun _ _ => [] }

/-- Concrete public keys for the closed evaluations. -/
def pkA : PublicKeys :=
  { signers := fun _ => 0, key_ids := fun _ => 0 }

/-- A concrete signing round in the given state, with empty bookkeeping. -/
def mkRound (st : State) : SigningRound :=
  { dkg_id := 7
    sign_id := 1
    sign_iter_id := 1
    threshold := 1
    total_signers := 1
    total_keys := 1
    signer := 0
    signer_id := 1
    state := st
    commitments := []
    decrypted_shares := []
    invalid_private_shares := []
    public_nonces := []
    network_private_key := 0
    public_keys := pkA }

/-- A concrete round in `DkgPrivateGather` with full bookkeeping for one
party, so that `can_dkg_end` holds. -/
def roundPG : SigningRound :=
  { mkRound State.DkgPrivateGather with
      commitments := [(1, { id := 1, payload := 0 })]
      decrypted_shares := [(1, [(1, 5)])] }

/-- A concrete nonce request. -/
def reqNonce : NonceRequest := { dkg_id := 7, sign_id := 4, sign_iter_id := 1 }

/-- A nonce response naming signer 1, used to build a quorum that lists the
same signer twice. -/
def nrDup : NonceResponse :=
  { dkg_id := 7
    sign_id := 1
    sign_iter_id := 1
    signer_id := 1
    key_ids := [1]
    nonces := [{ d := 1, e := 2 }] }

/-- A signature share request whose quorum lists signer 1 twice. -/
def reqDup : SignatureShareRequest :=
  { dkg_id := 7
    sign_id := 1
    sign_iter_id := 1
    nonce_responses := [nrDup, nrDup]
    message := []
    is_taproot := false
    merkle_root := none }

/-- A concrete private-shares message: source party 2 sends a parseable
share for key 1, source party 3 sends one that fails to parse. -/
def privMsgA : DkgPrivateShares :=
  { dkg_id := 7
    signer_id := 2
    shares := [(2, [(1, [5])]), (3, [(1, [])])] }

theorem Fmap.lookup_insert_self {α : Type} (m : Fmap α) (k : Nat) (v : α) :
    Fmap.lookup (Fmap.insert m k v) k = some v := by
  induction m with
  | nil => simp [Fmap.insert, Fmap.lookup]
  | cons kv rest ih =>
    obtain ⟨k', v'⟩ := kv
    by_cases h1 : k < k'
    · simp [Fmap.insert, h1, Fmap.lookup]
    · by_cases h2 : k = k'
      · simp [Fmap.insert, h1, h2, Fmap.lookup]
      · simp [Fmap.insert, h1, h2, Fmap.lookup, ih]

theorem Fmap.lookup_insert_ne {α : Type} (m : Fmap α) (k k' : Nat) (v : α)
    (h : k' ≠ k) : Fmap.lookup (Fmap.insert m k v) k' = Fmap.lookup m k' := by
  induction m with
  | nil => simp [Fmap.insert, Fmap.lookup, h]
  | cons kv rest ih =>
    obtain ⟨k0, v0⟩ := kv
    by_cases h1 : k < k0
    · simp [Fmap.insert, h1, Fmap.lookup, h]
    · by_cases h2 : k = k0
      · subst h2
        simp [Fmap.insert, h1, Fmap.lookup, h]
      · by_cases h3 : k' = k0
        · simp [Fmap.insert, h1, h2, Fmap.lookup, h3]
        · simp [Fmap.insert, h1, h2, Fmap.lookup, h3, ih]

theorem Fmap.mem_keys_insert {α : Type} (m : Fmap α) (k k' : Nat) (v : α) :
    k' ∈ Fmap.keys (Fmap.insert m k v) ↔ k' = k ∨ k' ∈ Fmap.keys m := by
  induction m with
  | nil => simp [Fmap.insert, Fmap.keys]
  | cons kv rest ih =>
    obtain ⟨k0, v0⟩ := kv
    by_cases h1 : k < k0
    · simp [Fmap.insert, h1, Fmap.keys]
    · by_cases h2 : k = k0
      · subst h2
        simp [Fmap.insert, h1, Fmap.keys]
      · simp [Fmap.insert, h1, h2, Fmap.keys] at ih ⊢
        tauto

/-- C1.  The transition predicate of the source differs from the claimed
graph in exactly one way: the code accepts a move to `Idle` from every
state, not only from `DkgPrivateGather`.  Here: from `Signed`, where the
claimed graph has no edge, `can_move_to` succeeds. -/
theorem can_move_to_extra_idle_edge_cex :
    can_move_to (mkRound State.Signed) State.Idle = Except.ok () ∧
    specEdge State.Signed State.Idle = false := ⟨rfl, rfl⟩

/-- C1 (amended).  `move_to(next)` from `prev` succeeds, setting the state
to `next`, iff the edge `prev → next` is in the claimed graph of section
4.4 or `next` is `Idle` (which the code accepts from every state); every
other attempted transition fails with `BadStateChange` naming `prev` and
`next` and leaves the round unchanged. -/
theorem move_to_graph_spec (r : SigningRound) (next : State) :
    move_to r next =
      (if specEdge r.state next || next == State.Idle
       then Except.ok { r with state := next }
       else Except.error (Error.BadStateChange r.state next)) := by
  rcases r with ⟨d, si, sii, th, ts, tk, sg, sid, st, cm, ds, ips, pn, npk, pk⟩
  cases st <;> cases next <;> rfl

/-- C3.  `public_shares_done` holds iff the state is `DkgPublicGather` and
the commitment count equals the signer's number of parties; `can_dkg_end`
holds iff the state is `DkgPrivateGather` and both the commitment count and
the decrypted-share count equal the number of parties. -/
theorem completion_predicates_spec (ops : SignerOps) (r : SigningRound) :
    (public_shares_done ops r = true ↔
      r.state = State.DkgPublicGather ∧
        r.commitments.length = ops.get_num_parties r.signer) ∧
    (can_dkg_end ops r = true ↔
      r.state = State.DkgPrivateGather ∧
        r.commitments.length = ops.get_num_parties r.signer ∧
        r.decrypted_shares.length = ops.get_num_parties r.signer) := by
  constructor
  · simp [public_shares_done, Bool.and_eq_true]
  · simp [can_dkg_end, Bool.and_eq_true, and_assoc]

theorem dkg_begin_round_fields (ops : SignerOps) (r : SigningRound) (rng : Nat)
    (m : DkgBegin) :
    (dkg_begin ops r rng m).2.1.commitments = [] ∧
    (dkg_begin ops r rng m).2.1.decrypted_shares = [] ∧
    (dkg_begin ops r rng m).2.1.invalid_private_shares = [] ∧
    (dkg_begin ops r rng m).2.1.public_nonces = [] ∧
    (dkg_begin ops r rng m).2.1.dkg_id = m.dkg_id ∧
    (dkg_begin ops r rng m).2.1.sign_id = r.sign_id ∧
    (dkg_begin ops r rng m).2.1.sign_iter_id = r.sign_iter_id ∧
    (dkg_begin ops r rng m).2.1.threshold = r.threshold ∧
    (dkg_begin ops r rng m).2.1.total_signers = r.total_signers ∧
    (dkg_begin ops r rng m).2.1.total_keys = r.total_keys ∧
    (dkg_begin ops r rng m).2.1.signer_id = r.signer_id ∧
    (dkg_begin ops r rng m).2.1.network_private_key = r.network_private_key ∧
    (dkg_begin ops r rng m).2.1.public_keys = r.public_keys ∧
    (dkg_begin ops r rng m).2.1.signer = (ops.reset_polys r.signer rng).1 := by
  rcases r with ⟨d, si, sii, th, ts, tk, sg, sid, st, cm, ds, ips, pn, npk, pk⟩
  cases st <;>
    exact ⟨rfl, rfl, rfl, rfl, rfl, rfl, rfl, rfl, rfl, rfl, rfl, rfl, rfl, rfl⟩

/-- C7.  `reset` (the whole effect of the bookkeeping reset performed when
handling `DkgBegin`) empties the four per-round collections and installs
the message's dkg id, leaving every other field of the round — including
`state` — unchanged, and replacing the signer's polynomials via
`reset_polys`; and the round produced by the full `dkg_begin` handler still
has the four collections empty and the new dkg id, so the reset happens
before any contribution of the new round is recorded. -/
theorem dkg_begin_reset_spec (ops : SignerOps) (r : SigningRound) (rng : Nat)
    (m : DkgBegin) :
    (reset ops r m.dkg_id rng).1 =
      { r with
          dkg_id := m.dkg_id
          commitments := []
          decrypted_shares := []
          invalid_private_shares := []
          public_nonces := []
          signer := (ops.reset_polys r.signer rng).1 } ∧
    (reset ops r m.dkg_id rng).2 = (ops.reset_polys r.signer rng).2 ∧
    (dkg_begin ops r rng m).2.1.commitments = [] ∧
    (dkg_begin ops r rng m).2.1.decrypted_shares = [] ∧
    (dkg_begin ops r rng m).2.1.invalid_private_shares = [] ∧
    (dkg_begin ops r rng m).2.1.public_nonces = [] ∧
    (dkg_begin ops r rng m).2.1.dkg_id = m.dkg_id := by
  refine ⟨rfl, rfl, ?_, ?_, ?_, ?_, ?_⟩
  · exact (dkg_begin_round_fields ops r rng m).1
  · exact (dkg_begin_round_fields ops r rng m).2.1
  · exact (dkg_begin_round_fields ops r rng m).2.2.1
  · exact (dkg_begin_round_fields ops r rng m).2.2.2.1
  · exact (dkg_begin_round_fields ops r rng m).2.2.2.2.1

/-- C9.  The claim fails on the code: `nonce_request` never writes the
`public_nonces` field.  Concretely, after handling a `NonceRequest` the
emitted `NonceResponse` carries the freshly generated nonce, while
`public_nonces` is still empty. -/
theorem nonce_request_public_nonces_cex :
    (nonce_request opsA (mkRound State.Idle) 0 reqNonce).1 =
      Except.ok [Message.NonceResponse
        { dkg_id := 7, sign_id := 4, sign_iter_id := 1, signer_id := 1,
          key_ids := [1], nonces := [{ d := 1, e := 2 }] }] ∧
    (nonce_request opsA (mkRound State.Idle) 0 reqNonce).2.1.public_nonces = [] ∧
    ([{ d := 1, e := 2 }] : List PublicNonce) ≠ [] := ⟨rfl, rfl, by decide⟩

/-- C9 (amended).  Handling a `NonceRequest` leaves `public_nonces`
unchanged (the handler never writes it); the generated per-key nonces are
carried only in the emitted `NonceResponse`, which echoes the request's
identifiers and carries this signer's id and key ids. -/
theorem nonce_request_spec (ops : SignerOps) (r : SigningRound) (rng : Nat)
    (m : NonceRequest) :
    nonce_request ops r rng m =
      (Except.ok [Message.NonceResponse
        { dkg_id := m.dkg_id
          sign_id := m.sign_id
          sign_iter_id := m.sign_iter_id
          signer_id := r.signer_id
          key_ids := ops.get_key_ids r.signer
          nonces := (ops.gen_nonces r.signer rng).1 }],
       { r with signer := (ops.gen_nonces r.signer rng).2.1 },
       (ops.gen_nonces r.signer rng).2.2) ∧
    (nonce_request ops r rng m).2.1.public_nonces = r.public_nonces := ⟨rfl, rfl⟩

/-- C5.  The claim fails on the code: a `DkgBegin` received in state
`DkgPrivateGather` resets the bookkeeping but then fails with
`BadStateChange` instead of reaching `DkgPublicGather`; the state field is
left unchanged. -/
theorem dkg_begin_any_state_cex :
    (dkg_begin opsA (mkRound State.DkgPrivateGather) 0 { dkg_id := 8 }).1 =
      Except.error (Error.BadStateChange State.DkgPrivateGather
        State.DkgPublicDistribute) ∧
    (dkg_begin opsA (mkRound State.DkgPrivateGather) 0 { dkg_id := 8 }).2.1.state =
      State.DkgPrivateGather := ⟨rfl, rfl⟩

/-- C5 (amended).  A `DkgBegin` message unconditionally resets the
per-round bookkeeping with the new dkg id; when the current state is one
of `Idle`, `DkgPublicGather`, `DkgPrivateDistribute` (the states with a
claimed edge into `DkgPublicDistribute`) the handler then emits this
signer's `DkgPublicShares` and leaves the machine in `DkgPublicGather`;
from any other state it fails with `BadStateChange`, leaving the state
field unchanged. -/
theorem dkg_begin_spec (ops : SignerOps) (r : SigningRound) (rng : Nat)
    (m : DkgBegin) :
    dkg_begin ops r rng m =
      (if specEdge r.state State.DkgPublicDistribute then
        (Except.ok [Message.DkgPublicShares
          { dkg_id := m.dkg_id
            signer_id := r.signer_id
            comms := (ops.get_poly_commitments (ops.reset_polys r.signer rng).1
                (ops.reset_polys r.signer rng).2).1.map (fun poly => (poly.id, poly)) }],
         { r with
             dkg_id := m.dkg_id
             commitments := []
             decrypted_shares := []
             invalid_private_shares := []
             public_nonces := []
             signer := (ops.reset_polys r.signer rng).1
             state := State.DkgPublicGather },
         (ops.get_poly_commitments (ops.reset_polys r.signer rng).1
           (ops.reset_polys r.signer rng).2).2)
      else
        (Except.error (Error.BadStateChange r.state State.DkgPublicDistribute),
         { r with
             dkg_id := m.dkg_id
             commitments := []
             decrypted_shares := []
             invalid_private_shares := []
             public_nonces := []
             signer := (ops.reset_polys r.signer rng).1 },
         (ops.reset_polys r.signer rng).2)) := by
  rcases r with ⟨d, si, sii, th, ts, tk, sg, sid, st, cm, ds, ips, pn, npk, pk⟩
  cases st <;> rfl

theorem foldl_if_push (x : Nat) (g : Nat → Message) (l : List Nat) :
    ∀ acc : List Message,
      l.foldl (fun msgs y => if y == x then msgs ++ [g y] else msgs) acc
        = acc ++ List.replicate (l.count x) (g x) := by
  induction l with
  | nil => intro acc; simp
  | cons y l ih =>
    intro acc
    rw [List.foldl_cons]
    by_cases h : y = x
    · subst h
      rw [if_pos (beq_iff_eq.mpr rfl), ih, List.count_cons_self,
        List.replicate_succ, List.append_assoc, List.singleton_append]
    · rw [if_neg (by simp [h]), ih, List.count_cons_of_ne (Ne.symm h)]

/-- C6.  The claim fails on the code: `sign_share_request` pushes one
response per occurrence of this signer's id in the quorum, so a request
whose quorum lists signer 1 twice makes signer 1 emit two
`SignatureShareResponse`s, not at most one. -/
theorem sign_share_request_dup_cex :
    (sign_share_request opsA (mkRound State.Idle) reqDup).1 =
      Except.ok
        [Message.SignatureShareResponse
          { dkg_id := 7, sign_id := 1, sign_iter_id := 1, signer_id := 1,
            signature_shares := [] },
         Message.SignatureShareResponse
          { dkg_id := 7, sign_id := 1, sign_iter_id := 1, signer_id := 1,
            signature_shares := [] }] ∧
    List.countP isSigShareResponse
      [Message.SignatureShareResponse
        { dkg_id := 7, sign_id := 1, sign_iter_id := 1, signer_id := 1,
          signature_shares := [] },
       Message.SignatureShareResponse
        { dkg_id := 7, sign_id := 1, sign_iter_id := 1, signer_id := 1,
          signature_shares := [] }] = 2 := ⟨rfl, rfl⟩

theorem sign_share_request_eq (ops : SignerOps) (r : SigningRound)
    (m : SignatureShareRequest) :
    sign_share_request ops r m =
      (Except.ok (List.replicate
        ((m.nonce_responses.map (fun nr => nr.signer_id)).count r.signer_id)
        (canonical_share_response ops r m)), r) := by
  show (Except.ok ((m.nonce_responses.map (fun nr => nr.signer_id)).foldl
    (fun msgs signer_id =>
      if signer_id == r.signer_id then
        msgs ++ [Message.SignatureShareResponse
          { dkg_id := m.dkg_id
            sign_id := m.sign_id
            sign_iter_id := m.sign_iter_id
            signer_id := signer_id
            signature_shares := shares_of ops r m }]
      else msgs) []),
    r) = _
  rw [foldl_if_push r.signer_id (fun sid => Message.SignatureShareResponse
    { dkg_id := m.dkg_id
      sign_id := m.sign_id
      sign_iter_id := m.sign_iter_id
      signer_id := sid
      signature_shares := shares_of ops r m })]
  simp [canonical_share_response]

/-- C6 (amended).  `sign_share_request` emits one `SignatureShareResponse`
per occurrence of this signer's id among the quorum's signer ids — hence
exactly one when the quorum's signer ids are distinct, and at least one iff
this signer appears; each response echoes the request's identifiers and
carries the shares computed by `sign` (or `sign_taproot` with the optional
merkle root when `is_taproot` is set) over the quorum's flattened key ids
and nonces in the given order, and the round is unchanged. -/
theorem sign_share_request_spec (ops : SignerOps) (r : SigningRound)
    (m : SignatureShareRequest) :
    sign_share_request ops r m =
      (Except.ok (List.replicate
        ((m.nonce_responses.map (fun nr => nr.signer_id)).count r.signer_id)
        (canonical_share_response ops r m)), r) ∧
    ((m.nonce_responses.map (fun nr => nr.signer_id)).count r.signer_id = 0 ↔
      r.signer_id ∉ m.nonce_responses.map (fun nr => nr.signer_id)) := by
  refine ⟨sign_share_request_eq ops r m, ?_⟩
  simp [List.count_eq_zero]

theorem move_to_idle (r : SigningRound) :
    move_to r State.Idle = Except.ok { r with state := State.Idle } := rfl

theorem process_eq_of_dispatch_ok (env : CryptoEnv) (ops : SignerOps)
    (r : SigningRound) (rng : Nat) (message : Message) (out : List Message)
    (r1 : SigningRound) (rng1 : Nat)
    (hd : dispatch env ops r rng message = (Except.ok out, r1, rng1)) :
    process env ops r rng message =
      (if public_shares_done ops r1 then
        match move_to r1 State.DkgPrivateDistribute with
        | Except.ok r2 => (Except.ok out, r2, rng1)
        | Except.error e => (Except.error e, r1, rng1)
      else if can_dkg_end ops r1 then
        match dkg_ended ops r1 with
        | (Except.ok dkg_end_msg, r2) =>
          (Except.ok (out ++ [dkg_end_msg]), { r2 with state := State.Idle }, rng1)
        | (Except.error e, r2) => (Except.error e, r2, rng1)
      else (Except.ok out, r1, rng1)) := by
  unfold process
  rw [hd]
  rfl

theorem dispatch_ok_no_dkg_end (env : CryptoEnv) (ops : SignerOps)
    (r : SigningRound) (rng : Nat) (msg : Message) (out : List Message)
    (r1 : SigningRound) (rng1 : Nat)
    (hd : dispatch env ops r rng msg = (Except.ok out, r1, rng1)) :
    out.countP isDkgEnd = 0 := by
  cases msg with
  | DkgBegin m =>
    have hd' : dkg_begin ops r rng m = (Except.ok out, r1, rng1) := hd
    unfold dkg_begin at hd'
    split at hd'
    split at hd'
    · simp at hd'
    · have hd2 := hd'
      unfold dkg_public_begin at hd2
      split at hd2
      split at hd2
      · simp at hd2
        simp [← hd2.1, isDkgEnd]
      · simp at hd2
  | DkgPrivateBegin m =>
    have hd' : dkg_private_begin env ops r rng = (Except.ok out, r1, rng1) := hd
    unfold dkg_private_begin at hd'
    split at hd'
    split at hd'
    · simp at hd'
      simp [← hd'.1, isDkgEnd]
    · simp at hd'
  | DkgEnd m =>
    have hd' : ((Except.ok [], r, rng) :
        Except Error (List Message) × SigningRound × Nat) =
        (Except.ok out, r1, rng1) := hd
    simp at hd'
    simp [hd'.1]
  | DkgPublicShares m =>
    have hd' : dkg_public_share r m = (Except.ok out, r1) := by
      have h := hd
      unfold dispatch at h
      unfold dkg_public_share at h ⊢
      simp at h ⊢
      exact ⟨h.1, h.2.1⟩
    unfold dkg_public_share at hd'
    simp at hd'
    simp [hd'.1]
  | DkgPrivateShares m =>
    have h := hd
    unfold dispatch dkg_private_shares at h
    simp at h
    simp [h.1]
  | NonceRequest m =>
    have hd' : nonce_request ops r rng m = (Except.ok out, r1, rng1) := hd
    unfold nonce_request at hd'
    split at hd'
    simp at hd'
    simp [← hd'.1, isDkgEnd]
  | NonceResponse m =>
    have hd' : ((Except.ok [], r, rng) :
        Except Error (List Message) × SigningRound × Nat) =
        (Except.ok out, r1, rng1) := hd
    simp at hd'
    simp [hd'.1]
  | SignatureShareRequest m =>
    have hd' : (sign_share_request ops r m).1 = Except.ok out := by
      have h := hd
      unfold dispatch at h
      simp at h
      rw [h.1]
    rw [sign_share_request_eq] at hd'
    simp at hd'
    rw [← hd']
    rw [List.countP_eq_zero]
    intro a ha
    rw [List.eq_of_mem_replicate ha]
    simp [canonical_share_response, isDkgEnd]
  | SignatureShareResponse m =>
    have hd' : ((Except.ok [], r, rng) :
        Except Error (List Message) × SigningRound × Nat) =
        (Except.ok out, r1, rng1) := hd
    simp at hd'
    simp [hd'.1]

/-- C2.  If the handler part of `process` succeeds with outputs `out`,
leaving the round in a state where `can_dkg_end` holds, then `process`
returns `out` followed by exactly one `DkgEnd` message carrying the current
dkg id and this signer's id, and moves the state to `Idle`; the status of
that `DkgEnd` is `Success` iff `invalid_private_shares` is empty and
`compute_secrets` on the decrypted shares and the commitments (in party-id
order) succeeds. -/
theorem process_emits_dkg_end (env : CryptoEnv) (ops : SignerOps)
    (r : SigningRound) (rng : Nat) (msg : Message) (out : List Message)
    (r1 : SigningRound) (rng1 : Nat)
    (hd : dispatch env ops r rng msg = (Except.ok out, r1, rng1))
    (hc : can_dkg_end ops r1 = true) :
    ∃ st r2,
      process env ops r rng msg =
        (Except.ok (out ++ [Message.DkgEnd
          { dkg_id := r1.dkg_id, signer_id := r1.signer_id, status := st }]),
         r2, rng1) ∧
      r2.state = State.Idle ∧
      (st = DkgStatus.Success ↔
        r1.invalid_private_shares = [] ∧
        (ops.compute_secrets r1.signer r1.decrypted_shares
          (Fmap.values r1.commitments)).1 = Except.ok ()) ∧
      (out ++ [Message.DkgEnd
        { dkg_id := r1.dkg_id, signer_id := r1.signer_id,
          status := st }]).countP isDkgEnd = 1 := by
  have hst : r1.state = State.DkgPrivateGather := by
    have h := hc
    simp [can_dkg_end, Bool.and_eq_true] at h
    exact h.1.1
  have hps : public_shares_done ops r1 = false := by
    simp [public_shares_done, hst]
  have hout : out.countP isDkgEnd = 0 :=
    dispatch_ok_no_dkg_end env ops r rng msg out r1 rng1 hd
  have hcount : ∀ st : DkgStatus,
      (out ++ [Message.DkgEnd
        { dkg_id := r1.dkg_id, signer_id := r1.signer_id,
          status := st }]).countP isDkgEnd = 1 := by
    intro st
    rw [List.countP_append, hout]
    simp [isDkgEnd]
  rw [process_eq_of_dispatch_ok env ops r rng msg out r1 rng1 hd]
  rw [hps, hc]
  simp only [Bool.false_eq_true, if_false, if_true]
  cases hinv : r1.invalid_private_shares with
  | nil =>
    rcases hcs : ops.compute_secrets r1.signer r1.decrypted_shares
        (Fmap.values r1.commitments) with ⟨res, sst⟩
    cases res with
    | ok u =>
      cases u
      have hde : dkg_ended ops r1 =
          (Except.ok (Message.DkgEnd
            { dkg_id := r1.dkg_id, signer_id := r1.signer_id,
              status := DkgStatus.Success }),
           { r1 with signer := sst }) := by
        unfold dkg_ended
        rw [hinv]
        simp [hcs]
      refine ⟨DkgStatus.Success, { r1 with signer := sst, state := State.Idle },
        ?_, rfl, ?_, hcount _⟩
      · rw [hde]
      · simp [hinv, hcs]
    | error errs =>
      have hde : dkg_ended ops r1 =
          (Except.ok (Message.DkgEnd
            { dkg_id := r1.dkg_id, signer_id := r1.signer_id,
              status := DkgStatus.Failure (DkgFail.computeSecrets errs) }),
           { r1 with signer := sst }) := by
        unfold dkg_ended
        rw [hinv]
        simp [hcs]
      refine ⟨DkgStatus.Failure (DkgFail.computeSecrets errs),
        { r1 with signer := sst, state := State.Idle }, ?_, rfl, ?_, hcount _⟩
      · rw [hde]
      · simp [hcs]
  | cons a tl =>
    have hde : dkg_ended ops r1 =
        (Except.ok (Message.DkgEnd
          { dkg_id := r1.dkg_id, signer_id := r1.signer_id,
            status := DkgStatus.Failure (DkgFail.badShares (a :: tl)) }), r1) := by
      unfold dkg_ended
      rw [hinv]
      simp
    refine ⟨DkgStatus.Failure (DkgFail.badShares (a :: tl)),
      { r1 with state := State.Idle }, ?_, rfl, ?_, hcount _⟩
    · rw [hde]
    · simp [hinv]

theorem process_emits_dkg_end_witness :
    dispatch envA opsA roundPG 0 (Message.NonceRequest reqNonce) =
      (Except.ok [Message.NonceResponse
        { dkg_id := 7, sign_id := 4, sign_iter_id := 1, signer_id := 1,
          key_ids := [1], nonces := [{ d := 1, e := 2 }] }], roundPG, 1) ∧
    can_dkg_end opsA roundPG = true ∧
    (∃ st r2,
      process envA opsA roundPG 0 (Message.NonceRequest reqNonce) =
        (Except.ok ([Message.NonceResponse
          { dkg_id := 7, sign_id := 4, sign_iter_id := 1, signer_id := 1,
            key_ids := [1], nonces := [{ d := 1, e := 2 }] }] ++
          [Message.DkgEnd
            { dkg_id := roundPG.dkg_id, signer_id := roundPG.signer_id,
              status := st }]), r2, 1) ∧
      r2.state = State.Idle ∧
      (st = DkgStatus.Success ↔
        roundPG.invalid_private_shares = [] ∧
        (opsA.compute_secrets roundPG.signer roundPG.decrypted_shares
          (Fmap.values roundPG.commitments)).1 = Except.ok ()) ∧
      ([Message.NonceResponse
        { dkg_id := 7, sign_id := 4, sign_iter_id := 1, signer_id := 1,
          key_ids := [1], nonces := [{ d := 1, e := 2 }] }] ++
        [Message.DkgEnd
          { dkg_id := roundPG.dkg_id, signer_id := roundPG.signer_id,
            status := st }]).countP isDkgEnd = 1) :=
  ⟨rfl, rfl,
    process_emits_dkg_end envA opsA roundPG 0 (Message.NonceRequest reqNonce)
      [Message.NonceResponse
        { dkg_id := 7, sign_id := 4, sign_iter_id := 1, signer_id := 1,
          key_ids := [1], nonces := [{ d := 1, e := 2 }] }] roundPG 1 rfl rfl⟩

theorem pim_aux_append (env : CryptoEnv) (ops : SignerOps) (pre rest : List Packet) :
    ∀ (r : SigningRound) (rng : Nat) (acc acc' : List Packet) (r1 : SigningRound)
      (rng1 : Nat),
      process_inbound_aux env ops r rng pre acc = (Except.ok acc', r1, rng1) →
      process_inbound_aux env ops r rng (pre ++ rest) acc =
        process_inbound_aux env ops r1 rng1 rest acc' := by
  induction pre with
  | nil =>
    intro r rng acc acc' r1 rng1 h
    unfold process_inbound_aux at h
    simp at h
    rw [List.nil_append, h.1, h.2.1, h.2.2]
  | cons p pre ih =>
    intro r rng acc acc' r1 rng1 h
    rw [List.cons_append]
    unfold process_inbound_aux at h
    show (match process env ops r rng p.msg with
      | (Except.error e, r', rng') => (Except.error e, r', rng')
      | (Except.ok outbounds, r', rng') =>
        let outPackets := outbounds.map
          (fun out => { sig := env.sign_message r'.network_private_key out, msg := out })
        process_inbound_aux env ops r' rng' (pre ++ rest) (acc ++ outPackets)) =
      process_inbound_aux env ops r1 rng1 rest acc'
    rcases hp : process env ops r rng p.msg with ⟨o, r', rng'⟩
    rw [hp] at h
    cases o with
    | error e => simp at h
    | ok outs =>
      exact ih r' rng' _ acc' r1 rng1 h

/-- C10.  If every packet of a prefix of the batch processes successfully
and the next packet's handler fails with error `e`, then
`process_inbound_messages` on the whole batch returns exactly that error
and no outbound packets at all (the responses produced by the prefix are
discarded), the packets after the failing one are not processed, and the
returned round is the one mutated by the prefix and by the failing
handler — nothing is rolled back. -/
theorem process_inbound_messages_abort_spec (env : CryptoEnv) (ops : SignerOps)
    (r : SigningRound) (rng : Nat) (pre : List Packet) (p : Packet)
    (post : List Packet) (outs : List Packet) (r1 : SigningRound) (rng1 : Nat)
    (e : Error) (r2 : SigningRound) (rng2 : Nat)
    (h1 : process_inbound_messages env ops r rng pre = (Except.ok outs, r1, rng1))
    (h2 : process env ops r1 rng1 p.msg = (Except.error e, r2, rng2)) :
    process_inbound_messages env ops r rng (pre ++ p :: post) =
      (Except.error e, r2, rng2) := by
  unfold process_inbound_messages at h1 ⊢
  rw [pim_aux_append env ops pre (p :: post) r rng [] outs r1 rng1 h1]
  unfold process_inbound_aux
  rw [h2]

theorem process_inbound_messages_abort_witness :
    process_inbound_messages envA opsA (mkRound State.Idle) 0 [] =
      (Except.ok [], mkRound State.Idle, 0) ∧
    process envA opsA (mkRound State.Idle) 0
      (Packet.mk [] (Message.DkgPrivateBegin { dkg_id := 7 })).msg =
      (Except.error (Error.BadStateChange State.Idle State.DkgPrivateGather),
       mkRound State.Idle, 0) ∧
    process_inbound_messages envA opsA (mkRound State.Idle) 0
      ([] ++ Packet.mk [] (Message.DkgPrivateBegin { dkg_id := 7 }) :: []) =
      (Except.error (Error.BadStateChange State.Idle State.DkgPrivateGather),
       mkRound State.Idle, 0) :=
  ⟨rfl, rfl,
    process_inbound_messages_abort_spec envA opsA (mkRound State.Idle) 0 []
      (Packet.mk [] (Message.DkgPrivateBegin { dkg_id := 7 })) [] []
      (mkRound State.Idle) 0
      (Error.BadStateChange State.Idle State.DkgPrivateGather)
      (mkRound State.Idle) 0 rfl rfl⟩

theorem decrypt_fold_lookup_not_mem (env : CryptoEnv) (keyIds : List Nat)
    (secret : Nat) (src : Nat) (g : List (Nat × List Nat)) :
    ∀ (acc : Fmap Nat × List Nat) (k : Nat), k ∉ g.map Prod.fst →
      Fmap.lookup (g.foldl (decrypt_one env keyIds secret src) acc).1 k =
        Fmap.lookup acc.1 k := by
  induction g with
  | nil => intro acc k _; rfl
  | cons db g ih =>
    intro acc k hk
    rw [List.map_cons] at hk
    have hk1 : k ≠ db.1 := fun h => hk (h ▸ List.mem_cons_self _ _)
    have hk2 : k ∉ g.map Prod.fst := fun h => hk (List.mem_cons_of_mem _ h)
    rw [List.foldl_cons, ih _ k hk2]
    unfold decrypt_one
    by_cases hc : keyIds.contains db.1 = true
    · rw [if_pos hc]
      rcases hdp : env.decrypt secret db.2 with _ | plain
      · rfl
      · dsimp only
        rcases hsc : env.scalar_from_bytes plain with _ | s
        · rfl
        · exact Fmap.lookup_insert_ne _ _ _ _ hk1
    · rw [if_neg hc]

theorem decrypt_fold_spec (env : CryptoEnv) (keyIds : List Nat) (secret : Nat)
    (src : Nat) (g : List (Nat × List Nat)) :
    ∀ (d0 : Fmap Nat) (inv0 : List Nat), (g.map Prod.fst).Nodup →
      ∃ ext,
        (g.foldl (decrypt_one env keyIds secret src) (d0, inv0)).2 = inv0 ++ ext ∧
        (∀ x ∈ ext, x = src) ∧
        ∀ db ∈ g, keyIds.contains db.1 = true →
          (∀ s, decparse env secret db.2 = some s →
            Fmap.lookup (g.foldl (decrypt_one env keyIds secret src) (d0, inv0)).1
              db.1 = some s) ∧
          (decparse env secret db.2 = none →
            Fmap.lookup (g.foldl (decrypt_one env keyIds secret src) (d0, inv0)).1
              db.1 = Fmap.lookup d0 db.1 ∧ src ∈ ext) := by
  induction g with
  | nil =>
    intro d0 inv0 _
    exact ⟨[], by simp, by simp, by simp⟩
  | cons db g ih =>
    intro d0 inv0 hnd
    rw [List.map_cons] at hnd
    have hdb1 : db.1 ∉ g.map Prod.fst := (List.nodup_cons.mp hnd).1
    have hnd' : (g.map Prod.fst).Nodup := (List.nodup_cons.mp hnd).2
    rw [List.foldl_cons]
    by_cases hc : keyIds.contains db.1 = true
    · rcases hdp : env.decrypt secret db.2 with _ | plain
      · -- decryption fails
        have hdpn : decparse env secret db.2 = none := by simp [decparse, hdp]
        have hstep : decrypt_one env keyIds secret src (d0, inv0) db =
            (d0, inv0 ++ [src]) := by
          unfold decrypt_one
          rw [if_pos hc, hdp]
        rw [hstep]
        obtain ⟨ext, h1, h2, h3⟩ := ih d0 (inv0 ++ [src]) hnd'
        refine ⟨src :: ext, ?_, ?_, ?_⟩
        · rw [h1, List.append_assoc, List.singleton_append]
        · intro x hx
          rcases List.mem_cons.mp hx with heq | hmem
          · exact heq
          · exact h2 x hmem
        · intro db' hdb' hc'
          rcases List.mem_cons.mp hdb' with heq | hmem
          · rw [heq]
            constructor
            · intro s hs
              rw [hdpn] at hs
              cases hs
            · intro _
              exact ⟨decrypt_fold_lookup_not_mem env keyIds secret src g _ db.1 hdb1,
                List.mem_cons_self _ _⟩
          · obtain ⟨ha, hb⟩ := h3 db' hmem hc'
            exact ⟨ha, fun hn => ⟨(hb hn).1, List.mem_cons_of_mem _ (hb hn).2⟩⟩
      · rcases hsc : env.scalar_from_bytes plain with _ | s0
        · -- scalar parsing fails
          have hdpn : decparse env secret db.2 = none := by simp [decparse, hdp, hsc]
          have hstep : decrypt_one env keyIds secret src (d0, inv0) db =
              (d0, inv0 ++ [src]) := by
            unfold decrypt_one
            rw [if_pos hc, hdp]
            dsimp only
            rw [hsc]
          rw [hstep]
          obtain ⟨ext, h1, h2, h3⟩ := ih d0 (inv0 ++ [src]) hnd'
          refine ⟨src :: ext, ?_, ?_, ?_⟩
          · rw [h1, List.append_assoc, List.singleton_append]
          · intro x hx
            rcases List.mem_cons.mp hx with heq | hmem
            · exact heq
            · exact h2 x hmem
          · intro db' hdb' hc'
            rcases List.mem_cons.mp hdb' with heq | hmem
            · rw [heq]
              constructor
              · intro s hs
                rw [hdpn] at hs
                cases hs
              · intro _
                exact ⟨decrypt_fold_lookup_not_mem env keyIds secret src g _ db.1 hdb1,
                  List.mem_cons_self _ _⟩
            · obtain ⟨ha, hb⟩ := h3 db' hmem hc'
              exact ⟨ha, fun hn => ⟨(hb hn).1, List.mem_cons_of_mem _ (hb hn).2⟩⟩
        · -- decrypt and parse succeed
          have hdps : decparse env secret db.2 = some s0 := by
            simp [decparse, hdp, hsc]
          have hstep : decrypt_one env keyIds secret src (d0, inv0) db =
              (Fmap.insert d0 db.1 s0, inv0) := by
            unfold decrypt_one
            rw [if_pos hc, hdp]
            dsimp only
            rw [hsc]
          rw [hstep]
          obtain ⟨ext, h1, h2, h3⟩ := ih (Fmap.insert d0 db.1 s0) inv0 hnd'
          refine ⟨ext, h1, h2, ?_⟩
          intro db' hdb' hc'
          rcases List.mem_cons.mp hdb' with heq | hmem
          · rw [heq]
            constructor
            · intro s hs
              rw [hdps] at hs
              injection hs with hs'
              rw [decrypt_fold_lookup_not_mem env keyIds secret src g _ db.1 hdb1,
                Fmap.lookup_insert_self, hs']
            · intro hn
              rw [hdps] at hn
              cases hn
          · have hne : db'.1 ≠ db.1 := by
              intro heq2
              exact hdb1 (heq2 ▸ List.mem_map_of_mem Prod.fst hmem)
            obtain ⟨ha, hb⟩ := h3 db' hmem hc'
            refine ⟨ha, fun hn => ?_⟩
            obtain ⟨hb1, hb2⟩ := hb hn
            refine ⟨?_, hb2⟩
            rw [hb1]
            exact Fmap.lookup_insert_ne _ _ _ _ hne
    · -- destination not owned by this signer: the pair is ignored
      have hstep : decrypt_one env keyIds secret src (d0, inv0) db = (d0, inv0) := by
        unfold decrypt_one
        rw [if_neg hc]
      rw [hstep]
      obtain ⟨ext, h1, h2, h3⟩ := ih d0 inv0 hnd'
      refine ⟨ext, h1, h2, ?_⟩
      intro db' hdb' hc'
      rcases List.mem_cons.mp hdb' with heq | hmem
      · rw [heq] at hc'
        exact absurd hc' hc
      · exact h3 db' hmem hc'

theorem private_fold_lookup_not_mem (env : CryptoEnv) (keyIds : List Nat)
    (secret : Nat) (sgs : List (Nat × List (Nat × List Nat))) :
    ∀ (r : SigningRound) (k : Nat), k ∉ sgs.map Prod.fst →
      Fmap.lookup
        (sgs.foldl (private_shares_step env keyIds secret) r).decrypted_shares k =
      Fmap.lookup r.decrypted_shares k := by
  induction sgs with
  | nil => intro r k _; rfl
  | cons sg sgs ih =>
    intro r k hk
    rw [List.map_cons] at hk
    have hk1 : k ≠ sg.1 := fun h => hk (h ▸ List.mem_cons_self _ _)
    have hk2 : k ∉ sgs.map Prod.fst := fun h => hk (List.mem_cons_of_mem _ h)
    rw [List.foldl_cons, ih _ k hk2]
    exact Fmap.lookup_insert_ne _ _ _ _ hk1

theorem dps_fold_spec (env : CryptoEnv) (keyIds : List Nat) (secret : Nat)
    (sgs : List (Nat × List (Nat × List Nat))) :
    ∀ (r : SigningRound),
      (sgs.map Prod.fst).Nodup →
      (∀ sg ∈ sgs, (sg.2.map Prod.fst).Nodup) →
      ∃ ext,
        (sgs.foldl (private_shares_step env keyIds secret) r).invalid_private_shares =
          r.invalid_private_shares ++ ext ∧
        ∀ sg ∈ sgs, ∃ d,
          Fmap.lookup
            (sgs.foldl (private_shares_step env keyIds secret) r).decrypted_shares
            sg.1 = some d ∧
          ∀ db ∈ sg.2, keyIds.contains db.1 = true →
            (∀ s, decparse env secret db.2 = some s → Fmap.lookup d db.1 = some s) ∧
            (decparse env secret db.2 = none →
              Fmap.lookup d db.1 = none ∧ sg.1 ∈ ext) := by
  induction sgs with
  | nil =>
    intro r _ _
    exact ⟨[], by simp, by simp⟩
  | cons sg sgs ih =>
    intro r hsrc hdst
    rw [List.map_cons] at hsrc
    have hsg1 : sg.1 ∉ sgs.map Prod.fst := (List.nodup_cons.mp hsrc).1
    have hsrc' : (sgs.map Prod.fst).Nodup := (List.nodup_cons.mp hsrc).2
    have hgnd : (sg.2.map Prod.fst).Nodup := hdst sg (List.mem_cons_self _ _)
    have hdst' : ∀ x ∈ sgs, (x.2.map Prod.fst).Nodup :=
      fun x hx => hdst x (List.mem_cons_of_mem _ hx)
    rw [List.foldl_cons]
    obtain ⟨extg, hg1, hg2, hg3⟩ :=
      decrypt_fold_spec env keyIds secret sg.1 sg.2 [] r.invalid_private_shares hgnd
    obtain ⟨ext', h1', hmain'⟩ :=
      ih (private_shares_step env keyIds secret r sg) hsrc' hdst'
    refine ⟨extg ++ ext', ?_, ?_⟩
    · rw [h1']
      rw [show (private_shares_step env keyIds secret r sg).invalid_private_shares =
        r.invalid_private_shares ++ extg from hg1, List.append_assoc]
    · intro sg' hsg'
      rcases List.mem_cons.mp hsg' with heq | hmem
      · refine ⟨(sg.2.foldl (decrypt_one env keyIds secret sg.1)
          ([], r.invalid_private_shares)).1, ?_, ?_⟩
        · rw [heq]
          rw [private_fold_lookup_not_mem env keyIds secret sgs
            (private_shares_step env keyIds secret r sg) sg.1 hsg1]
          exact Fmap.lookup_insert_self _ _ _
        · intro db hdb hc
          rw [heq] at hdb
          obtain ⟨ha, hb⟩ := hg3 db hdb hc
          refine ⟨ha, fun hn => ?_⟩
          obtain ⟨hb1, hb2⟩ := hb hn
          rw [heq]
          exact ⟨hb1, List.mem_append_left _ hb2⟩
      · obtain ⟨d, hd, hdbs⟩ := hmain' sg' hmem
        refine ⟨d, hd, fun db hdb hc => ?_⟩
        obtain ⟨ha, hb⟩ := hdbs db hdb hc
        exact ⟨ha, fun hn => ⟨(hb hn).1, List.mem_append_right _ (hb hn).2⟩⟩

/-- C4.  For a `DkgPrivateShares` message whose source ids (and the
destination ids within each source's batch) are duplicate-free, the handler
always returns `Ok` with no output messages; for each ciphertext addressed
to one of this signer's key ids, successful decrypt-and-parse stores the
scalar at `decrypted_shares[src][dst]`, while any failure appends the
source id to `invalid_private_shares` and leaves that destination absent;
and an entry for every source id is always inserted into
`decrypted_shares`, even when none of its shares were addressed to this
signer. -/
theorem dkg_private_shares_spec (env : CryptoEnv) (ops : SignerOps)
    (r : SigningRound) (m : DkgPrivateShares)
    (hsrc : (m.shares.map Prod.fst).Nodup)
    (hdst : ∀ sg ∈ m.shares, (sg.2.map Prod.fst).Nodup) :
    ∃ r' ext,
      dkg_private_shares env ops r m = (Except.ok [], r') ∧
      r'.invalid_private_shares = r.invalid_private_shares ++ ext ∧
      ∀ sg ∈ m.shares, ∃ d,
        Fmap.lookup r'.decrypted_shares sg.1 = some d ∧
        ∀ db ∈ sg.2, db.1 ∈ ops.get_key_ids r.signer →
          (∀ s, decparse env (env.make_shared_secret r.network_private_key
              (r.public_keys.signers m.signer_id)) db.2 = some s →
            Fmap.lookup d db.1 = some s) ∧
          (decparse env (env.make_shared_secret r.network_private_key
              (r.public_keys.signers m.signer_id)) db.2 = none →
            Fmap.lookup d db.1 = none ∧ sg.1 ∈ ext) := by
  obtain ⟨ext, h1, h2⟩ := dps_fold_spec env (ops.get_key_ids r.signer)
    (env.make_shared_secret r.network_private_key
      (r.public_keys.signers m.signer_id)) m.shares r hsrc hdst
  refine ⟨_, ext, rfl, h1, ?_⟩
  intro sg hsg
  obtain ⟨d, hd, hdbs⟩ := h2 sg hsg
  exact ⟨d, hd, fun db hdb hmem => hdbs db hdb (List.elem_eq_true_of_mem hmem)⟩

theorem dkg_private_shares_spec_witness :
    (privMsgA.shares.map Prod.fst).Nodup ∧
    (∀ sg ∈ privMsgA.shares, (sg.2.map Prod.fst).Nodup) ∧
    (∃ r' ext,
      dkg_private_shares envA opsA (mkRound State.Idle) privMsgA =
        (Except.ok [], r') ∧
      r'.invalid_private_shares =
        (mkRound State.Idle).invalid_private_shares ++ ext ∧
      ∀ sg ∈ privMsgA.shares, ∃ d,
        Fmap.lookup r'.decrypted_shares sg.1 = some d ∧
        ∀ db ∈ sg.2, db.1 ∈ opsA.get_key_ids (mkRound State.Idle).signer →
          (∀ s, decparse envA (envA.make_shared_secret
              (mkRound State.Idle).network_private_key
              ((mkRound State.Idle).public_keys.signers privMsgA.signer_id))
              db.2 = some s →
            Fmap.lookup d db.1 = some s) ∧
          (decparse envA (envA.make_shared_secret
              (mkRound State.Idle).network_private_key
              ((mkRound State.Idle).public_keys.signers privMsgA.signer_id))
              db.2 = none →
            Fmap.lookup d db.1 = none ∧ sg.1 ∈ ext)) :=
  ⟨by decide, by decide,
    dkg_private_shares_spec envA opsA (mkRound State.Idle) privMsgA
      (by decide) (by decide)⟩

theorem decrypt_one_keys (env : CryptoEnv) (keyIds : List Nat) (secret src : Nat)
    (acc : Fmap Nat × List Nat) (db : Nat × List Nat) (k : Nat)
    (hk : k ∈ Fmap.keys (decrypt_one env keyIds secret src acc db).1) :
    k ∈ Fmap.keys acc.1 ∨ k ∈ keyIds := by
  unfold decrypt_one at hk
  by_cases hc : keyIds.contains db.1 = true
  · rw [if_pos hc] at hk
    rcases hdp : env.decrypt secret db.2 with _ | plain
    · rw [hdp] at hk
      exact Or.inl hk
    · rw [hdp] at hk
      dsimp only at hk
      rcases hsc : env.scalar_from_bytes plain with _ | s
      · rw [hsc] at hk
        exact Or.inl hk
      · rw [hsc] at hk
        rcases (Fmap.mem_keys_insert _ _ _ _).mp hk with heq | hmem
        · exact Or.inr (heq ▸ List.mem_of_elem_eq_true hc)
        · exact Or.inl hmem
  · rw [if_neg hc] at hk
    exact Or.inl hk

theorem decrypt_fold_keys (env : CryptoEnv) (keyIds : List Nat) (secret src : Nat)
    (g : List (Nat × List Nat)) :
    ∀ (acc : Fmap Nat × List Nat) (k : Nat),
      k ∈ Fmap.keys (g.foldl (decrypt_one env keyIds secret src) acc).1 →
      k ∈ Fmap.keys acc.1 ∨ k ∈ keyIds := by
  induction g with
  | nil => intro acc k hk; exact Or.inl hk
  | cons db g ih =>
    intro acc k hk
    rw [List.foldl_cons] at hk
    rcases ih _ k hk with h | h
    · exact decrypt_one_keys env keyIds secret src acc db k h
    · exact Or.inr h

theorem shares_inv_of_eq (ops : SignerOps) (r r' : SigningRound)
    (hds : r'.decrypted_shares = r.decrypted_shares)
    (hk : ops.get_key_ids r'.signer = ops.get_key_ids r.signer)
    (h : shares_inv ops r) : shares_inv ops r' := by
  intro src d hl dst hdst
  rw [hds] at hl
  rw [hk]
  exact h src d hl dst hdst

theorem shares_inv_of_empty (ops : SignerOps) (r : SigningRound)
    (h : r.decrypted_shares = []) : shares_inv ops r := by
  intro src d hl dst hdst
  rw [h] at hl
  simp [Fmap.lookup] at hl

theorem move_to_ok_eq (r : SigningRound) (st : State) (r' : SigningRound)
    (h : move_to r st = Except.ok r') : r' = { r with state := st } := by
  unfold move_to at h
  split at h
  · injection h with h'
    exact h'.symm
  · cases h

theorem dps_fold_preserves_inv (env : CryptoEnv) (ops : SignerOps) (secret : Nat)
    (sgs : List (Nat × List (Nat × List Nat))) :
    ∀ r : SigningRound, shares_inv ops r →
      shares_inv ops
        (sgs.foldl (private_shares_step env (ops.get_key_ids r.signer) secret) r) := by
  induction sgs with
  | nil => intro r h; exact h
  | cons sg sgs ih =>
    intro r h
    rw [List.foldl_cons]
    have hstep : shares_inv ops
        (private_shares_step env (ops.get_key_ids r.signer) secret r sg) := by
      intro src d hl dst hdst
      by_cases hsrc : src = sg.1
      · have hl' : Fmap.lookup (Fmap.insert r.decrypted_shares sg.1
            (sg.2.foldl (decrypt_one env (ops.get_key_ids r.signer) secret sg.1)
              ([], r.invalid_private_shares)).1) src = some d := hl
        rw [hsrc, Fmap.lookup_insert_self] at hl'
        injection hl' with hd'
        rw [← hd'] at hdst
        rcases decrypt_fold_keys env (ops.get_key_ids r.signer) secret sg.1 sg.2
            ([], r.invalid_private_shares) dst hdst with hin | hin
        · simp [Fmap.keys] at hin
        · exact hin
      · have hl' : Fmap.lookup (Fmap.insert r.decrypted_shares sg.1
            (sg.2.foldl (decrypt_one env (ops.get_key_ids r.signer) secret sg.1)
              ([], r.invalid_private_shares)).1) src = some d := hl
        rw [Fmap.lookup_insert_ne _ _ _ _ hsrc] at hl'
        exact h src d hl' dst hdst
    exact ih (private_shares_step env (ops.get_key_ids r.signer) secret r sg) hstep

theorem dkg_ended_preserves_inv (ops : SignerOps) (r : SigningRound)
    (h2 : ∀ s ds polys,
      ops.get_key_ids (ops.compute_secrets s ds polys).2 = ops.get_key_ids s)
    (hinv : shares_inv ops r) : shares_inv ops (dkg_ended ops r).2 := by
  unfold dkg_ended
  dsimp only
  split
  · rcases hcs : ops.compute_secrets r.signer r.decrypted_shares
        (Fmap.values r.commitments) with ⟨res, sst⟩
    have hkeq : ops.get_key_ids sst = ops.get_key_ids r.signer := by
      have h := h2 r.signer r.decrypted_shares (Fmap.values r.commitments)
      rw [hcs] at h
      exact h
    cases res with
    | ok u =>
      cases u
      exact shares_inv_of_eq ops r _ rfl hkeq hinv
    | error errs =>
      exact shares_inv_of_eq ops r _ rfl hkeq hinv
  · exact hinv

theorem dispatch_preserves_shares_inv (env : CryptoEnv) (ops : SignerOps)
    (r : SigningRound) (rng : Nat) (msg : Message)
    (h1 : ∀ s rng, ops.get_key_ids (ops.reset_polys s rng).1 = ops.get_key_ids s)
    (h3 : ∀ s rng, ops.get_key_ids (ops.gen_nonces s rng).2.1 = ops.get_key_ids s)
    (hinv : shares_inv ops r) :
    shares_inv ops (dispatch env ops r rng msg).2.1 := by
  cases msg with
  | DkgBegin m =>
    exact shares_inv_of_empty ops _ ((dkg_begin_round_fields ops r rng m).2.1)
  | DkgPrivateBegin m =>
    show shares_inv ops (dkg_private_begin env ops r rng).2.1
    unfold dkg_private_begin
    split
    split
    · rename_i r' heq
      rw [move_to_ok_eq r State.DkgPrivateGather r' heq]
      exact shares_inv_of_eq ops r _ rfl rfl hinv
    · exact hinv
  | DkgEnd m => exact hinv
  | DkgPublicShares m =>
    exact shares_inv_of_eq ops r _ rfl rfl hinv
  | DkgPrivateShares m =>
    exact dps_fold_preserves_inv env ops
      (env.make_shared_secret r.network_private_key
        (r.public_keys.signers m.signer_id)) m.shares r hinv
  | NonceRequest m =>
    exact shares_inv_of_eq ops r _ rfl (h3 r.signer rng) hinv
  | NonceResponse m => exact hinv
  | SignatureShareRequest m => exact hinv
  | SignatureShareResponse m => exact hinv

theorem process_preserves_shares_inv (env : CryptoEnv) (ops : SignerOps)
    (r : SigningRound) (rng : Nat) (msg : Message)
    (h1 : ∀ s rng, ops.get_key_ids (ops.reset_polys s rng).1 = ops.get_key_ids s)
    (h2 : ∀ s ds polys,
      ops.get_key_ids (ops.compute_secrets s ds polys).2 = ops.get_key_ids s)
    (h3 : ∀ s rng, ops.get_key_ids (ops.gen_nonces s rng).2.1 = ops.get_key_ids s)
    (hinv : shares_inv ops r) :
    shares_inv ops (process env ops r rng msg).2.1 := by
  have hd := dispatch_preserves_shares_inv env ops r rng msg h1 h3 hinv
  unfold process
  rcases hdisp : dispatch env ops r rng msg with ⟨o, r1, rng1⟩
  rw [hdisp] at hd
  cases o with
  | error e => exact hd
  | ok out =>
    dsimp only
    split
    · split
      · rename_i r2 heq
        rw [move_to_ok_eq r1 State.DkgPrivateDistribute r2 heq]
        exact shares_inv_of_eq ops r1 _ rfl rfl hd
      · exact hd
    · split
      · have hde := dkg_ended_preserves_inv ops r1 h2 hd
        rcases hdee : dkg_ended ops r1 with ⟨om, r2⟩
        rw [hdee] at hde
        cases om with
        | ok mmsg =>
          exact shares_inv_of_eq ops r2 _ rfl rfl hde
        | error e => exact hde
      · exact hd

/-- C8.  Provided the cryptographic signer's key ids are stable under its
mutating operations (reset_polys, compute_secrets, gen_nonces — they are
pure identity queries per the specification), every round reachable from a
fresh `SigningRound` satisfies invariant I3: every destination key id of
every inner map of `decrypted_shares` is one of this signer's own key ids;
in particular the invariant is preserved by every message handler. -/
theorem reachable_shares_inv (env : CryptoEnv) (ops : SignerOps)
    (h1 : ∀ s rng, ops.get_key_ids (ops.reset_polys s rng).1 = ops.get_key_ids s)
    (h2 : ∀ s ds polys,
      ops.get_key_ids (ops.compute_secrets s ds polys).2 = ops.get_key_ids s)
    (h3 : ∀ s rng, ops.get_key_ids (ops.gen_nonces s rng).2.1 = ops.get_key_ids s)
    (r : SigningRound) (hr : Reachable env ops r) :
    shares_inv ops r := by
  induction hr with
  | init threshold total_signers total_keys signer_id key_ids npk pks rng h =>
    exact shares_inv_of_empty ops _ rfl
  | step r' rng msg hr ih =>
    exact process_preserves_shares_inv env ops r' rng msg h1 h2 h3 ih

theorem reachable_shares_inv_witness :
    (∀ s rng, opsA.get_key_ids (opsA.reset_polys s rng).1 = opsA.get_key_ids s) ∧
    (∀ s ds polys,
      opsA.get_key_ids (opsA.compute_secrets s ds polys).2 = opsA.get_key_ids s) ∧
    (∀ s rng, opsA.get_key_ids (opsA.gen_nonces s rng).2.1 = opsA.get_key_ids s) ∧
    (1 : Nat) ≤ 1 ∧
    shares_inv opsA (SigningRound.new opsA 1 1 1 1 [1] 0 pkA 0) :=
  ⟨fun _ _ => rfl, fun _ _ _ => rfl, fun _ _ => rfl, le_refl 1,
    reachable_shares_inv envA opsA (fun _ _ => rfl) (fun _ _ _ => rfl)
      (fun _ _ => rfl) _ (Reachable.init 1 1 1 1 [1] 0 pkA 0 (le_refl 1))⟩

end Wsts
